import Mathlib

/-!
Verification of the 746Disco_Windy serial/display core.

This file gives a shallow embedding, in Lean, of the core routines of the
repository — the ESP32 AT-command driver (`Core/Src/esp32_at.c`), the display
buffer manager (`Core/Src/windy_display.c` / `Core/Inc/windy_display.h`) and
the orchestrator loop (`Core/Src/main.c`) — and proves or refutes the
behavioural properties stated in the specification.

Modelling conventions: bytes are `Nat`; a byte stream delivered on the data
channel before a deadline is a `List Nat`; the outcome of an `at_cmd`
exchange whose internals are not relevant to a property is an oracle `Bool`;
destination-memory writes are logged as `(offset, byte)` pairs instead of
mutating an array, so that exactly which offsets are written, with which
bytes and in which order, is visible in the result.
-/

namespace Disco

/-! ## Byte-list primitives

Spec-side counterparts of the C string scans (`strstr` over the response
accumulator, the `\r\n\r\n` terminator search).  `isPrefAt n h` holds when
`n` occurs at the start of `h`; `hasSub n h` when `n` occurs contiguously
anywhere in `h`; `endsWith s l` when `s` is a suffix of `l`. -/

/-- Leading-match test: `n` occurs at the very start of `h`. -/
def isPrefAt : List Nat → List Nat → Bool
  | [], _ => true
  | _ :: _, [] => false
  | a :: as, b :: bs => (a == b) && isPrefAt as bs

/-- Contiguous-substring test, the pure counterpart of C `strstr`. -/
def hasSub (n : List Nat) : List Nat → Bool
  | [] => n.isEmpty
  | b :: t => isPrefAt n (b :: t) || hasSub n t

/-- Suffix test. -/
def endsWith (suf l : List Nat) : Bool := isPrefAt suf.reverse l.reverse

theorem isPrefAt_iff (n h : List Nat) : isPrefAt n h = true ↔ ∃ t, h = n ++ t := by
  induction n generalizing h with
  | nil => simp [isPrefAt]
  | cons a as ih =>
    cases h with
    | nil => simp [isPrefAt]
    | cons b bs =>
      simp only [isPrefAt, Bool.and_eq_true, beq_iff_eq, ih, List.cons_append,
        List.cons.injEq]
      constructor
      · rintro ⟨rfl, t, rfl⟩; exact ⟨t, rfl, rfl⟩
      · rintro ⟨t, rfl, rfl⟩; exact ⟨rfl, t, rfl⟩

theorem hasSub_iff (n h : List Nat) : hasSub n h = true ↔ ∃ p q, h = p ++ n ++ q := by
  induction h with
  | nil =>
    simp only [hasSub, List.isEmpty_iff]
    constructor
    · rintro rfl; exact ⟨[], [], rfl⟩
    · rintro ⟨p, q, hpq⟩
      rcases List.append_eq_nil.mp (List.append_eq_nil.mp hpq.symm).1 with ⟨-, h2⟩
      exact h2
  | cons b t ih =>
    simp only [hasSub, Bool.or_eq_true, isPrefAt_iff, ih]
    constructor
    · rintro (⟨q, hq⟩ | ⟨p, q, rfl⟩)
      · exact ⟨[], q, by simp [hq]⟩
      · exact ⟨b :: p, q, rfl⟩
    · rintro ⟨p, q, hpq⟩
      cases p with
      | nil => exact Or.inl ⟨q, by simpa using hpq⟩
      | cons c p' =>
        rw [List.cons_append, List.cons_append, List.cons.injEq] at hpq
        exact Or.inr ⟨p', q, hpq.2⟩

theorem endsWith_iff (suf l : List Nat) : endsWith suf l = true ↔ ∃ p, l = p ++ suf := by
  rw [endsWith, isPrefAt_iff]
  constructor
  · rintro ⟨t, ht⟩
    refine ⟨t.reverse, ?_⟩
    have := congrArg List.reverse ht
    simpa using this
  · rintro ⟨p, rfl⟩
    exact ⟨p.reverse, by simp⟩

theorem hasSub_of_append_left {n a : List Nat} (b : List Nat)
    (h : hasSub n a = true) : hasSub n (a ++ b) = true := by
  rw [hasSub_iff] at h ⊢
  rcases h with ⟨p, q, rfl⟩
  exact ⟨p, q ++ b, by simp⟩

/-! ## Streaming fetcher — `esp32_http_get_image` (`Core/Src/esp32_at.c`, 288-377)

The reception loop (lines 332-359) keeps a 4-byte rolling window `tail`,
initially `{0,0,0,0}`; in header mode every received byte is shifted into the
window and the header is complete once the window equals `\r\n\r\n`; in body
mode every received byte is stored with `dst[body_len++] = b`.  The loop runs
while `body_len < expected_bytes` and the 90 s deadline has not passed.  The
list argument below is the sequence of data-channel bytes that arrive before
the deadline; a `HAL_UART_Receive` call that times out (line 342) executes
`continue` and changes no state, so such iterations are elided. -/

/-- Header terminator CR LF CR LF compared against the rolling window
(`esp32_at.c` lines 347-348). -/
def termSeq : List Nat := [13, 10, 13, 10]

/-- Spec-side description of a complete header block: the byte list ends with
CR LF CR LF and contains no earlier occurrence of that terminator, i.e. the
header bytes end with the terminator's first occurrence. -/
def endsFirstTerm (hdr : List Nat) : Bool :=
  endsWith termSeq hdr && !(hasSub termSeq hdr.dropLast)

/-- Stream-session state of `esp32_http_get_image` (`esp32_at.c` lines
332-336): bytes written so far (`body_len`), header-complete flag
(`hdr_done`), the 4-byte rolling window (`tail`), and the log of destination
writes `(offset, byte)`, one entry per executed `dst[body_len++] = b`. -/
structure StreamState where
  body_len : Nat
  hdr_done : Bool
  tail : List Nat
  writes : List (Nat × Nat)
deriving Repr, DecidableEq

/-- Initial stream-session state (`esp32_at.c` lines 333-335). -/
def initStream : StreamState := ⟨0, false, [0, 0, 0, 0], []⟩

/-- Handling of one received byte, the loop body at `esp32_at.c` lines
345-358: in header mode shift the rolling window left by one and append the
byte, then set `hdr_done` when the window equals the terminator; in body mode
append the byte at destination offset `body_len` and increment `body_len`. -/
def recvByte (s : StreamState) (b : Nat) : StreamState :=
  if s.hdr_done then
    { s with body_len := s.body_len + 1, writes := s.writes ++ [(s.body_len, b)] }
  else
    let t := s.tail.drop 1 ++ [b]
    if t = termSeq then { s with tail := t, hdr_done := true }
    else { s with tail := t }

/-- The reception loop of `esp32_http_get_image` (`esp32_at.c` line 338):
`while (body_len < expected_bytes && HAL_GetTick() < deadline)`.  The input
list holds the bytes delivered before the deadline, so the loop also stops
when the list is exhausted. -/
def recvLoop (expected : Nat) : StreamState → List Nat → StreamState
  | s, [] => s
  | s, b :: rest =>
    if s.body_len < expected then recvLoop expected (recvByte s b) rest
    else s

/-- Commands and raw sends issued by `esp32_http_get_image`, in source order. -/
inductive ImgCmd
  | cipmux0 | cipmode1 | cipstart | cipsend | getRequest | guardEscape | cipmode0 | cipclose
deriving Repr, DecidableEq

/-- Result of `esp32_http_get_image`: return code, trace of issued command
exchanges and raw sends, and the final stream-session state. -/
structure HttpResult where
  rc : Int
  trace : List ImgCmd
  final : StreamState
deriving Repr, DecidableEq

/-- Shallow embedding of `esp32_http_get_image` (`esp32_at.c` lines 288-377).
The four Booleans are the outcomes of the `at_cmd` exchanges `AT+CIPMUX=0`,
`AT+CIPMODE=1`, `AT+CIPSTART` and `AT+CIPSEND`; the source issues
`AT+CIPMUX=0` without inspecting its result (line 293), so `cipmuxOk` is
unused here exactly as there.  `stream` is the byte sequence delivered on the
data channel before the 90 s deadline once passthrough is active.  The
post-loop guard sequence and mode restore (lines 364-371) do not affect the
return value, which is `0` iff `body_len >= expected_bytes` (line 376). -/
def esp32_http_get_image (cipmuxOk cipmodeOk cipstartOk cipsendOk : Bool)
    (stream : List Nat) (expected : Nat) : HttpResult :=
  if !cipmodeOk then
    ⟨-1, [ImgCmd.cipmux0, ImgCmd.cipmode1], initStream⟩
  else if !cipstartOk then
    ⟨-1, [ImgCmd.cipmux0, ImgCmd.cipmode1, ImgCmd.cipstart, ImgCmd.cipmode0], initStream⟩
  else if !cipsendOk then
    ⟨-1, [ImgCmd.cipmux0, ImgCmd.cipmode1, ImgCmd.cipstart, ImgCmd.cipsend,
          ImgCmd.cipclose, ImgCmd.cipmode0], initStream⟩
  else
    let s := recvLoop expected initStream stream
    ⟨if expected ≤ s.body_len then 0 else -1,
     [ImgCmd.cipmux0, ImgCmd.cipmode1, ImgCmd.cipstart, ImgCmd.cipsend,
      ImgCmd.getRequest, ImgCmd.guardEscape, ImgCmd.cipmode0, ImgCmd.cipclose], s⟩

/-! ### The rolling window as a function of the consumed prefix -/

/-- The value of the 4-byte rolling window after the bytes `l` have been
shifted in, starting from the all-zero window: the last four elements of
`[0,0,0,0] ++ l`. -/
def last4 (l : List Nat) : List Nat := (([0, 0, 0, 0] : List Nat) ++ l).drop l.length

theorem last4_nil : last4 [] = [0, 0, 0, 0] := rfl

theorem last4_snoc (l : List Nat) (b : Nat) :
    last4 (l ++ [b]) = (last4 l).drop 1 ++ [b] := by
  unfold last4
  rw [← List.append_assoc, List.length_append, List.length_singleton,
    List.drop_append_of_le_length (by simp), List.drop_drop]

theorem last4_eq_term_iff (l : List Nat) :
    last4 l = termSeq ↔ ∃ p, l = p ++ termSeq := by
  constructor
  · intro h
    match l with
    | [] => simp [last4, termSeq] at h
    | [a] => simp [last4, termSeq, List.drop] at h
    | [a, b] => simp [last4, termSeq, List.drop] at h
    | [a, b, c] => simp [last4, termSeq, List.drop] at h
    | a :: b :: c :: d :: t =>
      have hdrop : last4 (a :: b :: c :: d :: t)
          = (a :: b :: c :: d :: t).drop t.length := by
        unfold last4
        have hl : (a :: b :: c :: d :: t).length
            = ([0, 0, 0, 0] : List Nat).length + t.length := by
          simp only [List.length_cons, List.length_nil]
          omega
        rw [hl, List.drop_append]
      refine ⟨(a :: b :: c :: d :: t).take t.length, ?_⟩
      rw [← h, hdrop, List.take_append_drop]
  · rintro ⟨p, rfl⟩
    unfold last4
    have hl : (p ++ termSeq).length = (([0, 0, 0, 0] : List Nat) ++ p).length := by
      simp only [List.length_append, List.length_cons, List.length_nil, termSeq]
      omega
    rw [hl, ← List.append_assoc, List.drop_left]

/-! ### Reception-loop lemmas -/

theorem recvLoop_cons (expected : Nat) (s : StreamState) (b : Nat) (l : List Nat) :
    recvLoop expected s (b :: l)
      = if s.body_len < expected then recvLoop expected (recvByte s b) l else s := rfl

/-- One header-mode iteration, with the rolling window expressed through the
consumed prefix of the stream. -/
theorem recvLoop_header_step (expected : Nat) (hexp : 0 < expected)
    (consumed : List Nat) (b : Nat) (l : List Nat) :
    recvLoop expected ⟨0, false, last4 consumed, []⟩ (b :: l)
      = recvLoop expected
          (if last4 (consumed ++ [b]) = termSeq
           then ⟨0, true, last4 (consumed ++ [b]), []⟩
           else ⟨0, false, last4 (consumed ++ [b]), []⟩) l := by
  rw [recvLoop_cons]
  have hb : (⟨0, false, last4 consumed, []⟩ : StreamState).body_len < expected := hexp
  rw [if_pos hb]
  congr 1
  simp only [recvByte, last4_snoc]
  rfl

/-- Header phase: as long as the stream processed so far contains no
occurrence of the terminator except possibly one ending at the very last
byte, the loop stays in header mode, writes nothing, and on the byte that
completes the first terminator occurrence it switches to body mode. -/
theorem recvLoop_header (expected : Nat) (hexp : 0 < expected) (hdr : List Nat) :
    ∀ (consumed rest : List Nat),
      hdr ≠ [] →
      (∃ p, consumed ++ hdr = p ++ termSeq) →
      (∀ p q, consumed ++ hdr = p ++ termSeq ++ q → q = []) →
      recvLoop expected ⟨0, false, last4 consumed, []⟩ (hdr ++ rest)
        = recvLoop expected ⟨0, true, termSeq, []⟩ rest := by
  induction hdr with
  | nil =>
    intro consumed rest hne _ _
    exact absurd rfl hne
  | cons b hdr' ih =>
    intro consumed rest _ hend hfirst
    rw [List.cons_append, recvLoop_header_step expected hexp]
    cases hdr' with
    | nil =>
      obtain ⟨p, hp⟩ := hend
      have hterm : last4 (consumed ++ [b]) = termSeq := by
        rw [last4_eq_term_iff]
        exact ⟨p, hp⟩
      rw [if_pos hterm, hterm, List.nil_append]
    | cons c hdr'' =>
      have hmiss : ¬ last4 (consumed ++ [b]) = termSeq := by
        intro hEq
        rw [last4_eq_term_iff] at hEq
        rcases hEq with ⟨p, hp⟩
        have hq : (c :: hdr'') = ([] : List Nat) := by
          refine hfirst p (c :: hdr'') ?_
          rw [List.append_cons, hp, List.append_assoc]
        exact absurd hq (by simp)
      rw [if_neg hmiss]
      obtain ⟨p, hp⟩ := hend
      refine ih (consumed ++ [b]) rest (by simp) ⟨p, ?_⟩ ?_
      · rw [← List.append_cons]
        exact hp
      · intro p' q' h'
        refine hfirst p' q' ?_
        rw [List.append_cons]
        exact h'

/-- Body phase: once the header is complete, each delivered byte is written
at the next offset until `expected` bytes have been written or the stream
ends; the destination-write log extends by exactly the indexed prefix of the
remaining input. -/
theorem recvLoop_body (expected : Nat) (input : List Nat) :
    ∀ (k : Nat) (t : List Nat) (w : List (Nat × Nat)),
      recvLoop expected ⟨k, true, t, w⟩ input
        = ⟨k + min (expected - k) input.length, true, t,
           w ++ List.enumFrom k (input.take (expected - k))⟩ := by
  induction input with
  | nil =>
    intro k t w
    simp [recvLoop]
  | cons b rest ih =>
    intro k t w
    by_cases hk : k < expected
    · rw [recvLoop_cons, if_pos hk]
      have hbyte : recvByte ⟨k, true, t, w⟩ b = ⟨k + 1, true, t, w ++ [(k, b)]⟩ := by
        simp [recvByte]
      rw [hbyte, ih (k + 1)]
      have hsub : expected - k = (expected - (k + 1)) + 1 := by omega
      have hmin : (k + 1) + min (expected - (k + 1)) rest.length
          = k + min (expected - k) (b :: rest).length := by
        simp only [List.length_cons]
        omega
      rw [hmin, hsub, List.take_succ_cons]
      simp [List.append_assoc, List.enumFrom]
    · rw [recvLoop_cons, if_neg hk]
      have h0 : expected - k = 0 := by omega
      simp [h0]

/-- The loop with `expected_bytes = 0` exits immediately, whatever the state. -/
theorem recvLoop_zero (s : StreamState) (l : List Nat) : recvLoop 0 s l = s := by
  cases l <;> simp [recvLoop]

/-- Unpacking of the spec-side header condition: the header is non-empty,
ends with the terminator, and admits no decomposition around the terminator
with a non-empty remainder. -/
theorem endsFirstTerm_spec (hdr : List Nat) (h : endsFirstTerm hdr = true) :
    hdr ≠ [] ∧ (∃ p, hdr = p ++ termSeq) ∧ (∀ p q, hdr = p ++ termSeq ++ q → q = []) := by
  rw [endsFirstTerm, Bool.and_eq_true, Bool.not_eq_true'] at h
  obtain ⟨h1, h2⟩ := h
  rw [endsWith_iff] at h1
  obtain ⟨p, hp⟩ := h1
  refine ⟨?_, ⟨p, hp⟩, ?_⟩
  · rw [hp]
    simp [termSeq]
  · intro p' q' h'
    by_contra hq
    have hin : hasSub termSeq hdr.dropLast = true := by
      rw [hasSub_iff]
      refine ⟨p', q'.dropLast, ?_⟩
      rw [h', List.append_assoc,
        List.dropLast_append_of_ne_nil p' (by simp [termSeq, hq]),
        List.dropLast_append_of_ne_nil termSeq hq, List.append_assoc]
    rw [h2] at hin
    exact Bool.false_ne_true hin

/-- The reception on a stream made of a well-terminated header followed by a
body: the loop consumes the header writing nothing, then writes the body
bytes at consecutive offsets starting from 0. -/
theorem recvLoop_split (expected : Nat) (hdr body : List Nat)
    (hh : endsFirstTerm hdr = true) (hpos : 0 < expected) :
    recvLoop expected initStream (hdr ++ body)
      = ⟨min expected body.length, true, termSeq,
         List.enumFrom 0 (body.take expected)⟩ := by
  obtain ⟨hne, hend, hfirst⟩ := endsFirstTerm_spec hdr hh
  have h1 : recvLoop expected ⟨0, false, last4 [], []⟩ (hdr ++ body)
      = recvLoop expected ⟨0, true, termSeq, []⟩ body := by
    refine recvLoop_header expected hpos hdr [] body hne ?_ ?_
    · simpa using hend
    · simpa using hfirst
  have h2 : initStream = (⟨0, false, last4 [], []⟩ : StreamState) := rfl
  rw [h2, h1, recvLoop_body]
  simp

/-- The fully-successful command phase reduces `esp32_http_get_image` to the
reception loop on the delivered stream. -/
theorem http_get_image_ok (mux : Bool) (stream : List Nat) (expected : Nat) :
    esp32_http_get_image mux true true true stream expected
      = ⟨if expected ≤ (recvLoop expected initStream stream).body_len then 0 else -1,
         [ImgCmd.cipmux0, ImgCmd.cipmode1, ImgCmd.cipstart, ImgCmd.cipsend,
          ImgCmd.getRequest, ImgCmd.guardEscape, ImgCmd.cipmode0, ImgCmd.cipclose],
         recvLoop expected initStream stream⟩ := rfl

/-- C1.  For every source byte stream in which the header bytes — ending with
the first occurrence of the 4-byte sequence CR LF CR LF, wherever read
boundaries fall — are followed by at least `expected` body bytes delivered
before the deadline, `esp32_http_get_image` writes exactly the first
`expected` body bytes, byte-for-byte and in order, at destination offsets
`0, 1, …`, and returns success (0). -/
theorem c1_stream_success (mux : Bool) (hdr body : List Nat) (expected : Nat)
    (hh : endsFirstTerm hdr = true) (hlen : expected ≤ body.length) :
    (esp32_http_get_image mux true true true (hdr ++ body) expected).rc = 0
    ∧ (esp32_http_get_image mux true true true (hdr ++ body) expected).final.writes
        = List.enumFrom 0 (body.take expected)
    ∧ (esp32_http_get_image mux true true true (hdr ++ body) expected).final.body_len
        = expected := by
  rcases Nat.eq_zero_or_pos expected with h0 | hpos
  · subst h0
    rw [http_get_image_ok, recvLoop_zero]
    refine ⟨?_, ?_, ?_⟩ <;> simp [initStream]
  · rw [http_get_image_ok, recvLoop_split expected hdr body hh hpos]
    refine ⟨?_, ?_, ?_⟩ <;> simp [Nat.min_eq_left hlen]

/-- Witness for C1 at a concrete run: header `HI\r\n\r\n`, five body bytes,
three expected. -/
theorem c1_witness :
    (endsFirstTerm [72, 73, 13, 10, 13, 10] = true ∧ 3 ≤ [5, 6, 7, 8, 9].length)
    ∧ ((esp32_http_get_image true true true true
          ([72, 73, 13, 10, 13, 10] ++ [5, 6, 7, 8, 9]) 3).rc = 0
       ∧ (esp32_http_get_image true true true true
          ([72, 73, 13, 10, 13, 10] ++ [5, 6, 7, 8, 9]) 3).final.writes
            = List.enumFrom 0 ([5, 6, 7, 8, 9].take 3)
       ∧ (esp32_http_get_image true true true true
          ([72, 73, 13, 10, 13, 10] ++ [5, 6, 7, 8, 9]) 3).final.body_len = 3) :=
  ⟨⟨by decide, by decide⟩,
   c1_stream_success true [72, 73, 13, 10, 13, 10] [5, 6, 7, 8, 9] 3 (by decide) (by decide)⟩

/-- C2.  If only `k < expected` body bytes arrive before the deadline, the
call reports failure (−1) and the write log holds exactly those `k` bytes at
offsets `0 … k−1`; partial writes are not rolled back. -/
theorem c2_partial_body (mux : Bool) (hdr body : List Nat) (expected : Nat)
    (hh : endsFirstTerm hdr = true) (hlen : body.length < expected) :
    (esp32_http_get_image mux true true true (hdr ++ body) expected).rc = -1
    ∧ (esp32_http_get_image mux true true true (hdr ++ body) expected).final.writes
        = List.enumFrom 0 body
    ∧ (esp32_http_get_image mux true true true (hdr ++ body) expected).final.body_len
        = body.length := by
  have hpos : 0 < expected := by omega
  rw [http_get_image_ok, recvLoop_split expected hdr body hh hpos]
  have hmin : min expected body.length = body.length :=
    Nat.min_eq_right (Nat.le_of_lt hlen)
  have htake : body.take expected = body := List.take_of_length_le (Nat.le_of_lt hlen)
  refine ⟨?_, ?_, ?_⟩ <;> simp [hmin, htake, Nat.not_le.mpr hlen]

/-- Witness for C2 at a concrete run: header `\r\n\r\n`, two body bytes,
four expected. -/
theorem c2_witness :
    (endsFirstTerm [13, 10, 13, 10] = true ∧ [40, 41].length < 4)
    ∧ ((esp32_http_get_image false true true true ([13, 10, 13, 10] ++ [40, 41]) 4).rc = -1
       ∧ (esp32_http_get_image false true true true
            ([13, 10, 13, 10] ++ [40, 41]) 4).final.writes = List.enumFrom 0 [40, 41]
       ∧ (esp32_http_get_image false true true true
            ([13, 10, 13, 10] ++ [40, 41]) 4).final.body_len = [40, 41].length) :=
  ⟨⟨by decide, by decide⟩,
   c2_partial_body false [13, 10, 13, 10] [40, 41] 4 (by decide) (by decide)⟩

/-! ### Bounds of the destination writes -/

theorem recvByte_body_len (s : StreamState) (b : Nat) :
    (recvByte s b).body_len = if s.hdr_done then s.body_len + 1 else s.body_len := by
  by_cases hd : s.hdr_done <;> simp [recvByte, hd]
  split <;> rfl

theorem recvByte_writes (s : StreamState) (b : Nat) :
    (recvByte s b).writes
      = if s.hdr_done then s.writes ++ [(s.body_len, b)] else s.writes := by
  by_cases hd : s.hdr_done <;> simp [recvByte, hd]
  split <;> rfl

/-- Loop invariant: the bytes-written counter never exceeds `expected`, and
every logged destination offset is below `expected`. -/
theorem recvLoop_bound (expected : Nat) (input : List Nat) :
    ∀ s : StreamState, s.body_len ≤ expected →
      (s.writes.all fun w => decide (w.1 < expected)) = true →
      (recvLoop expected s input).body_len ≤ expected
      ∧ ((recvLoop expected s input).writes.all fun w => decide (w.1 < expected)) = true := by
  induction input with
  | nil =>
    intro s h1 h2
    exact ⟨h1, h2⟩
  | cons b rest ih =>
    intro s h1 h2
    rw [recvLoop_cons]
    by_cases hk : s.body_len < expected
    · rw [if_pos hk]
      refine ih (recvByte s b) ?_ ?_
      · rw [recvByte_body_len]
        split <;> omega
      · rw [recvByte_writes]
        split
        · simp only [List.all_append, h2, Bool.true_and, List.all_cons, List.all_nil,
            Bool.and_true]
          exact decide_eq_true hk
        · exact h2
    · rw [if_neg hk]
      exact ⟨h1, h2⟩

/-- C10.  For every source byte stream — including streams that deliver more
body bytes than expected — `esp32_http_get_image` never writes outside
destination offsets `0 … expected−1`: the bytes-written counter stays
bounded by `expected`, and every logged write offset is below `expected`. -/
theorem c10_no_overrun (cipmuxOk cipmodeOk cipstartOk cipsendOk : Bool)
    (stream : List Nat) (expected : Nat) :
    (esp32_http_get_image cipmuxOk cipmodeOk cipstartOk cipsendOk
        stream expected).final.body_len ≤ expected
    ∧ ((esp32_http_get_image cipmuxOk cipmodeOk cipstartOk cipsendOk
        stream expected).final.writes.all fun w => decide (w.1 < expected)) = true := by
  have hinit := recvLoop_bound expected stream initStream
    (by simp [initStream]) (by simp [initStream])
  cases cipmodeOk with
  | false => simp [esp32_http_get_image, initStream]
  | true =>
    cases cipstartOk with
    | false => simp [esp32_http_get_image, initStream]
    | true =>
      cases cipsendOk with
      | false => simp [esp32_http_get_image, initStream]
      | true => exact hinit

/-! ### Effects of the reception loop — diagnostic-channel silence -/

/-- Observable effects of the reception loop: a data-channel
(`HAL_UART_Receive` on USART6) read, a destination-memory write, or a
diagnostic-channel write (`dbg_puts`/`dbg_printf` on USART1). -/
inductive Effect
  | uartRead
  | dstWrite (off b : Nat)
  | dbgWrite
deriving Repr, DecidableEq

/-- Effects performed by one iteration of the reception loop body
(`esp32_at.c` lines 339-358): the data-channel read, and in body mode the
destination write; the loop body contains no diagnostic-channel call (the
source comments at lines 350-351 and 355-357 state why). -/
def stepEffects (s : StreamState) (b : Nat) : List Effect :=
  if s.hdr_done then [Effect.uartRead, Effect.dstWrite s.body_len b]
  else [Effect.uartRead]

/-- Effect trace of the reception loop of `esp32_http_get_image`. -/
def recvLoopEff (expected : Nat) : StreamState → List Nat → List Effect
  | _, [] => []
  | s, b :: rest =>
    if s.body_len < expected then stepEffects s b ++ recvLoopEff expected (recvByte s b) rest
    else []

/-- Effects that touch only the data channel, the window and the destination
region — everything except the diagnostic channel. -/
def effectOk : Effect → Bool
  | Effect.dbgWrite => false
  | _ => true

/-- Effect trace of `esp32_http_get_image` around the loop on the success
path: the `dbg_printf` before the loop (line 324), the loop itself, then the
post-loop `dbg_printf` calls (lines 361 and 373). -/
def imgEffects (expected : Nat) (stream : List Nat) : List Effect :=
  Effect.dbgWrite
    :: (recvLoopEff expected initStream stream ++ [Effect.dbgWrite, Effect.dbgWrite])

theorem recvLoopEff_all_ok (expected : Nat) (stream : List Nat) :
    ∀ s : StreamState, ((recvLoopEff expected s stream).all effectOk) = true := by
  induction stream with
  | nil =>
    intro s
    simp [recvLoopEff]
  | cons b rest ih =>
    intro s
    rw [recvLoopEff]
    split
    · rw [List.all_append, ih (recvByte s b)]
      by_cases hd : s.hdr_done <;> simp [stepEffects, hd, effectOk]
    · simp

/-- C9.  While the streaming body-reception loop is active, no operation on
the diagnostic output channel (USART1) is executed: diagnostic writes occur
before and after the loop, and every effect emitted by the loop itself is a
data-channel read or a destination write. -/
theorem c9_no_dbg_in_loop (expected : Nat) (s : StreamState) (stream : List Nat) :
    imgEffects expected stream
      = Effect.dbgWrite
          :: (recvLoopEff expected initStream stream ++ [Effect.dbgWrite, Effect.dbgWrite])
    ∧ ((recvLoopEff expected s stream).all effectOk) = true :=
  ⟨rfl, recvLoopEff_all_ok expected stream s⟩

/-! ### ModeSwitch step of the streaming fetcher (claim C7) -/

/-- C7 counterexample.  The claim says a failing `AT+CIPMUX=0` aborts the
fetch; in the source its result is discarded (line 293).  With the
single-connection command failing and everything else succeeding, the call
still connects, sends the GET request, and returns success. -/
theorem c7_counterexample :
    (esp32_http_get_image false true true true ([13, 10, 13, 10] ++ [99]) 1).rc = 0
    ∧ ((esp32_http_get_image false true true true
        ([13, 10, 13, 10] ++ [99]) 1).trace.contains ImgCmd.cipstart) = true
    ∧ ((esp32_http_get_image false true true true
        ([13, 10, 13, 10] ++ [99]) 1).trace.contains ImgCmd.getRequest) = true := by
  decide

/-- C7 (amended).  In the ModeSwitch step only a failure of the
enter-raw-passthrough command (`AT+CIPMODE=1`) aborts — returning −1 without
connecting or sending the request; the result of the force-single-connection
command (`AT+CIPMUX=0`) is ignored, so the whole call is insensitive to it. -/
theorem c7_amended (mux cmode cstart csend : Bool) (stream : List Nat) (expected : Nat) :
    ((esp32_http_get_image mux false cstart csend stream expected).rc = -1
      ∧ ((esp32_http_get_image mux false cstart csend stream expected).trace.contains
          ImgCmd.cipstart) = false
      ∧ ((esp32_http_get_image mux false cstart csend stream expected).trace.contains
          ImgCmd.getRequest) = false)
    ∧ esp32_http_get_image mux cmode cstart csend stream expected
        = esp32_http_get_image true cmode cstart csend stream expected :=
  ⟨⟨rfl, rfl, rfl⟩, rfl⟩

/-! ## Command session — `at_cmd` (`Core/Src/esp32_at.c`, 68-110)

`at_cmd` flushes stale input, sends the command, then loops until the
deadline: each iteration is one `esp_recv` call with a 200 ms idle window
(line 85); the returned bytes extend the accumulator `s_rx`, the whole
accumulator is searched for the expected token (line 87), and an `esp_recv`
that returned no bytes at all breaks out of the loop (line 91).  After the
loop a final token search decides the result (lines 94-109).  A `RecvRound`
is the outcome of one `esp_recv` call: the chunk of bytes it returned and
its wall-clock duration in ms.  An exhausted round list stands for a link
gone silent — the next `esp_recv` returns nothing after its idle window. -/

/-- Idle window of each `esp_recv` call inside `at_cmd` (`esp32_at.c` line 85). -/
def idleMs : Nat := 200

/-- One `esp_recv` call: returned bytes and duration in ms. -/
structure RecvRound where
  chunk : List Nat
  dur : Nat
deriving Repr, DecidableEq

/-- Outcome of `at_cmd`: return code and elapsed time in ms. -/
structure CmdResult where
  rc : Int
  elapsed : Nat
deriving Repr, DecidableEq

/-- Post-loop token check of `at_cmd` (`esp32_at.c` lines 94-109). -/
def tokenCheck (expect acc : List Nat) (elapsed : Nat) : CmdResult :=
  ⟨if hasSub expect acc then 0 else -1, elapsed⟩

/-- Read loop of `at_cmd` (`esp32_at.c` lines 84-92). -/
def at_cmd_loop (timeout : Nat) (expect : List Nat) :
    Nat → List Nat → List RecvRound → CmdResult
  | elapsed, acc, rounds =>
    if elapsed < timeout then
      match rounds with
      | [] => tokenCheck expect acc (elapsed + idleMs)
      | r :: rest =>
        if !r.chunk.isEmpty && hasSub expect (acc ++ r.chunk) then
          ⟨0, elapsed + r.dur⟩
        else if r.chunk.isEmpty then
          tokenCheck expect (acc ++ r.chunk) (elapsed + r.dur)
        else
          at_cmd_loop timeout expect (elapsed + r.dur) (acc ++ r.chunk) rest
    else tokenCheck expect acc elapsed

/-- `at_cmd` with an expected token: empty accumulator, zero elapsed time. -/
def at_cmd (timeout : Nat) (expect : List Nat) (rounds : List RecvRound) : CmdResult :=
  at_cmd_loop timeout expect 0 [] rounds

/-- All bytes a round list delivers, in order. -/
def roundsBytes (rounds : List RecvRound) : List Nat :=
  (rounds.map RecvRound.chunk).flatten

/-- Total duration of a round list in ms. -/
def roundsDur (rounds : List RecvRound) : Nat :=
  (rounds.map RecvRound.dur).sum

theorem roundsBytes_cons (r : RecvRound) (rest : List RecvRound) :
    roundsBytes (r :: rest) = r.chunk ++ roundsBytes rest := by
  simp [roundsBytes]

theorem roundsDur_cons (r : RecvRound) (rest : List RecvRound) :
    roundsDur (r :: rest) = r.dur + roundsDur rest := by
  simp [roundsDur]

theorem hasSub_false_of_append (n a b : List Nat)
    (h : hasSub n (a ++ b) = false) : hasSub n a = false := by
  cases hc : hasSub n a
  · rfl
  · rw [hasSub_of_append_left b hc] at h
    exact absurd h (by simp)

/-- C3 counterexample.  The claim says an idle read does not abandon the
exchange before the deadline; in the source an `esp_recv` round that returns
no bytes executes `break` (line 91).  With a 2000 ms deadline and a single
idle 200 ms round, `at_cmd` reports failure after 200 ms — far before the
deadline. -/
theorem c3_counterexample :
    (at_cmd 2000 [79, 75] [⟨[], 200⟩]).rc = -1
    ∧ (at_cmd 2000 [79, 75] [⟨[], 200⟩]).elapsed = 200
    ∧ (at_cmd 2000 [79, 75] [⟨[], 200⟩]).elapsed < 2000 := by
  decide

/-- Read loop of `at_cmd` on a token that never appears: every round that
returns bytes continues the loop, so the loop runs until the deadline or
until the round list is exhausted (one further idle window). -/
theorem at_cmd_loop_no_match (timeout : Nat) (expect : List Nat) :
    ∀ (rounds : List RecvRound) (elapsed : Nat) (acc : List Nat),
      (∀ r ∈ rounds, r.chunk ≠ []) →
      hasSub expect (acc ++ roundsBytes rounds) = false →
      (at_cmd_loop timeout expect elapsed acc rounds).rc = -1
      ∧ min timeout (elapsed + roundsDur rounds + idleMs)
          ≤ (at_cmd_loop timeout expect elapsed acc rounds).elapsed := by
  intro rounds
  induction rounds with
  | nil =>
    intro elapsed acc _ hno
    have hacc : hasSub expect acc = false := by
      simpa [roundsBytes] using hno
    rw [at_cmd_loop]
    by_cases he : elapsed < timeout
    · rw [if_pos he]
      refine ⟨by simp [tokenCheck, hacc], ?_⟩
      simp only [tokenCheck, roundsDur, List.map_nil, List.sum_nil]
      omega
    · rw [if_neg he]
      refine ⟨by simp [tokenCheck, hacc], ?_⟩
      simp only [tokenCheck]
      omega
  | cons r rest ih =>
    intro elapsed acc hne hno
    have hacc : hasSub expect acc = false :=
      hasSub_false_of_append _ _ _ hno
    rw [at_cmd_loop]
    by_cases he : elapsed < timeout
    · rw [if_pos he]
      have hrne : r.chunk ≠ [] := hne r (by simp)
      have hnosub : hasSub expect (acc ++ r.chunk) = false := by
        refine hasSub_false_of_append _ _ (roundsBytes rest) ?_
        rw [List.append_assoc, ← roundsBytes_cons]
        exact hno
      rw [if_neg (by simp [hnosub]), if_neg (by simp [List.isEmpty_eq_false.mpr hrne])]
      have hrec := ih (elapsed + r.dur) (acc ++ r.chunk)
        (fun x hx => hne x (List.mem_cons_of_mem r hx))
        (by rw [List.append_assoc, ← roundsBytes_cons]; exact hno)
      refine ⟨hrec.1, ?_⟩
      have := hrec.2
      rw [roundsDur_cons]
      omega
    · rw [if_neg he]
      refine ⟨by simp [tokenCheck, hacc], ?_⟩
      simp only [tokenCheck]
      omega

/-- C3 (amended).  `at_cmd` keeps issuing reads until the overall deadline
only while every read round returns at least one byte: should the token
never appear, the call fails, and when no round is idle the failure comes no
earlier than the deadline or the end of the input (plus one idle window).
An idle round, however, ends the exchange at once — possibly far before the
deadline (see the counterexample). -/
theorem c3_amended (timeout : Nat) (expect : List Nat) (rounds : List RecvRound)
    (hne : ∀ r ∈ rounds, r.chunk ≠ [])
    (hno : hasSub expect (roundsBytes rounds) = false) :
    (at_cmd timeout expect rounds).rc = -1
    ∧ min timeout (roundsDur rounds + idleMs) ≤ (at_cmd timeout expect rounds).elapsed := by
  have h := at_cmd_loop_no_match timeout expect rounds 0 [] hne (by simpa using hno)
  rw [at_cmd]
  refine ⟨h.1, ?_⟩
  have := h.2
  omega

/-- Witness for C3 (amended): a 1000 ms deadline, one 300 ms round carrying
one byte, token `OK` absent. -/
theorem c3_witness :
    ((∀ r ∈ [(⟨[1], 300⟩ : RecvRound)], r.chunk ≠ [])
      ∧ hasSub [79, 75] (roundsBytes [(⟨[1], 300⟩ : RecvRound)]) = false)
    ∧ ((at_cmd 1000 [79, 75] [(⟨[1], 300⟩ : RecvRound)]).rc = -1
       ∧ min 1000 (roundsDur [(⟨[1], 300⟩ : RecvRound)] + idleMs)
           ≤ (at_cmd 1000 [79, 75] [(⟨[1], 300⟩ : RecvRound)]).elapsed) :=
  ⟨⟨by decide, by decide⟩,
   c3_amended 1000 [79, 75] [(⟨[1], 300⟩ : RecvRound)] (by decide) (by decide)⟩

/-! ## Credential escaping — `at_escape` (`Core/Src/esp32_at.c`, 56-66) -/

/-- Characters `AT+CWJAP` treats specially (`esp32_at.c` line 61):
double quote (34), backslash (92), comma (44). -/
def needEsc (c : Nat) : Bool := c == 34 || c == 92 || c == 44

/-- Loop of `at_escape` (`esp32_at.c` lines 59-65): `j` is the output write
index; the loop runs while input remains and `j < dst_len - 2`; a special
character is preceded by one backslash (92), every character is then copied.
Callers pass `dst_len = 128`; the `size_t` wrap-around of `dst_len - 2` for
`dst_len < 2`, which no caller exercises, is not modelled (`-` here is
truncated `Nat` subtraction). -/
def at_escape_go (dstLen : Nat) : List Nat → Nat → List Nat
  | [], _ => []
  | c :: rest, j =>
    if j < dstLen - 2 then
      if needEsc c then 92 :: c :: at_escape_go dstLen rest (j + 2)
      else c :: at_escape_go dstLen rest (j + 1)
    else []

/-- `at_escape(src, dst, dst_len)` as a function from the source bytes to
the bytes stored at `dst` before the terminating NUL. -/
def at_escape (src : List Nat) (dstLen : Nat) : List Nat := at_escape_go dstLen src 0

/-- Escaping as the specification words it: every character outside
`{quote, backslash, comma}` is reproduced unchanged and in order; every
character inside that set is prefixed with exactly one backslash. -/
def escapeSpec : List Nat → List Nat
  | [] => []
  | c :: rest => if needEsc c then 92 :: c :: escapeSpec rest else c :: escapeSpec rest

theorem at_escape_go_eq (dstLen : Nat) (src : List Nat) :
    ∀ j : Nat, j + 2 * src.length + 2 ≤ dstLen →
      at_escape_go dstLen src j = escapeSpec src := by
  induction src with
  | nil =>
    intro j _
    rfl
  | cons c rest ih =>
    intro j hj
    simp only [List.length_cons] at hj
    have hlt : j < dstLen - 2 := by omega
    rw [at_escape_go, if_pos hlt]
    by_cases hc : needEsc c
    · rw [if_pos hc, escapeSpec, if_pos hc, ih (j + 2) (by omega)]
    · rw [if_neg hc, escapeSpec, if_neg hc, ih (j + 1) (by omega)]

theorem escapeSpec_length (l : List Nat) : l.length ≤ (escapeSpec l).length := by
  induction l with
  | nil => simp [escapeSpec]
  | cons c rest ih =>
    by_cases hc : needEsc c <;> simp [escapeSpec, hc] <;> omega

theorem escapeSpec_eq_self_iff (l : List Nat) :
    escapeSpec l = l ↔ (l.all fun c => !needEsc c) = true := by
  induction l with
  | nil => simp [escapeSpec]
  | cons c rest ih =>
    by_cases hc : needEsc c
    · have heq : escapeSpec (c :: rest) = 92 :: c :: escapeSpec rest := by
        rw [escapeSpec, if_pos hc]
      rw [heq, List.all_cons, hc]
      simp only [Bool.not_true, Bool.false_and]
      constructor
      · intro h
        exfalso
        have hlen := congrArg List.length h
        simp only [List.length_cons] at hlen
        have := escapeSpec_length rest
        omega
      · intro h
        exact absurd h (by simp)
    · simp [escapeSpec, hc, List.cons.injEq, ih]

/-- C6.  `at_escape` reproduces every character outside `{quote, backslash,
comma}` unchanged and in order and prefixes each of those three characters
with exactly one backslash (it equals the spec-side `escapeSpec`); the
output equals the input exactly when the input contains none of the three.
The capacity hypothesis reflects the 128-byte buffers the callers use. -/
theorem c6_escape (src : List Nat) (dstLen : Nat)
    (hcap : 2 * src.length + 2 ≤ dstLen) :
    at_escape src dstLen = escapeSpec src
    ∧ (at_escape src dstLen = src ↔ (src.all fun c => !needEsc c) = true) := by
  have h1 : at_escape src dstLen = escapeSpec src :=
    at_escape_go_eq dstLen src 0 (by omega)
  refine ⟨h1, ?_⟩
  rw [h1]
  exact escapeSpec_eq_self_iff src

/-- Witness for C6: the spec's end-to-end example, SSID `My"Net` with a
128-byte destination. -/
theorem c6_witness :
    (2 * ([77, 121, 34, 78, 101, 116] : List Nat).length + 2 ≤ 128)
    ∧ (at_escape [77, 121, 34, 78, 101, 116] 128 = escapeSpec [77, 121, 34, 78, 101, 116]
       ∧ (at_escape [77, 121, 34, 78, 101, 116] 128 = [77, 121, 34, 78, 101, 116]
           ↔ (([77, 121, 34, 78, 101, 116] : List Nat).all fun c => !needEsc c) = true)) :=
  ⟨by decide, c6_escape [77, 121, 34, 78, 101, 116] 128 (by decide)⟩

/-! ## Link negotiation — `esp32_connect_wifi` (`Core/Src/esp32_at.c`, 144-202) -/

/-- Command exchanges issued by `esp32_connect_wifi`, in source order:
the `AT` probe (line 157), the `AT+CWJAP?` association query (line 166),
the `AT+RST` reset (line 173), the post-reset `AT` check (line 176),
`AT+CWMODE=1` (line 182), and the `AT+CWJAP` join (line 195). -/
inductive WCmd
  | probeAT | queryCWJAP | rstCmd | postRstAT | cwmode1 | cwjapJoin
deriving Repr, DecidableEq

/-- Outcomes of the command exchanges inside `esp32_connect_wifi`: the three
probe attempts, the association query, the post-reset check, the mode set,
and the join. -/
structure WifiOracle where
  at1 : Bool
  at2 : Bool
  at3 : Bool
  cwjapQuery : Bool
  atAfterRst : Bool
  cwmode : Bool
  cwjapJoin : Bool
deriving Repr, DecidableEq

/-- Probe attempts issued by the retry loop at `esp32_at.c` lines 154-158
(`for (int i = 0; i < 3 && at_ok != 0; i++)`): the loop stops as soon as an
attempt succeeds, after at most three attempts. -/
def probeTrace (o : WifiOracle) : List WCmd :=
  if o.at1 then [WCmd.probeAT]
  else if o.at2 then [WCmd.probeAT, WCmd.probeAT]
  else [WCmd.probeAT, WCmd.probeAT, WCmd.probeAT]

/-- Shallow embedding of `esp32_connect_wifi` (`esp32_at.c` lines 144-202):
return code together with the command exchanges issued. -/
def esp32_connect_wifi (o : WifiOracle) : Int × List WCmd :=
  let pt := probeTrace o
  if (o.at1 || o.at2 || o.at3) = false then (-1, pt)
  else if o.cwjapQuery then (0, pt ++ [WCmd.queryCWJAP])
  else if o.atAfterRst = false then
    (-1, pt ++ [WCmd.queryCWJAP, WCmd.rstCmd, WCmd.postRstAT])
  else if o.cwmode = false then
    (-1, pt ++ [WCmd.queryCWJAP, WCmd.rstCmd, WCmd.postRstAT, WCmd.cwmode1])
  else if o.cwjapJoin = false then
    (-1, pt ++ [WCmd.queryCWJAP, WCmd.rstCmd, WCmd.postRstAT, WCmd.cwmode1, WCmd.cwjapJoin])
  else
    (0, pt ++ [WCmd.queryCWJAP, WCmd.rstCmd, WCmd.postRstAT, WCmd.cwmode1, WCmd.cwjapJoin])

/-- C8.  `esp32_connect_wifi` attempts the `AT` probe at most 3 times;
it stops at the probe stage, with failure and nothing but probes issued,
exactly when all three attempts fail; and when the probe succeeds and the
`AT+CWJAP?` query reports an active association, it returns success having
issued only the probes and the query — no reset, mode-set or join. -/
theorem c8_probe_reuse (o : WifiOracle) :
    ((esp32_connect_wifi o).2.count WCmd.probeAT ≤ 3)
    ∧ ((o.at1 || o.at2 || o.at3) = false
        ↔ esp32_connect_wifi o = (-1, probeTrace o))
    ∧ ((o.at1 || o.at2 || o.at3) = true → o.cwjapQuery = true →
        (esp32_connect_wifi o).1 = 0
        ∧ (esp32_connect_wifi o).2 = probeTrace o ++ [WCmd.queryCWJAP]
        ∧ ((esp32_connect_wifi o).2.contains WCmd.rstCmd) = false
        ∧ ((esp32_connect_wifi o).2.contains WCmd.cwmode1) = false
        ∧ ((esp32_connect_wifi o).2.contains WCmd.cwjapJoin) = false) := by
  obtain ⟨a1, a2, a3, q, ar, cm, cj⟩ := o
  cases a1 <;> cases a2 <;> cases a3 <;> cases q <;> cases ar <;> cases cm <;> cases cj <;>
    decide

/-- Witness for C8 at the spec's end-to-end probe scenario: the probe fails
twice and succeeds on the third attempt, and the device still holds an
association, so the call succeeds on the reuse path after exactly three
probes, a query, and nothing else. -/
theorem c8_witness :
    (((⟨false, false, true, true, true, true, true⟩ : WifiOracle).at1
        || (⟨false, false, true, true, true, true, true⟩ : WifiOracle).at2
        || (⟨false, false, true, true, true, true, true⟩ : WifiOracle).at3) = true
      ∧ (⟨false, false, true, true, true, true, true⟩ : WifiOracle).cwjapQuery = true)
    ∧ ((esp32_connect_wifi ⟨false, false, true, true, true, true, true⟩).1 = 0
       ∧ (esp32_connect_wifi ⟨false, false, true, true, true, true, true⟩).2
           = probeTrace ⟨false, false, true, true, true, true, true⟩ ++ [WCmd.queryCWJAP]
       ∧ ((esp32_connect_wifi ⟨false, false, true, true, true, true, true⟩).2.contains
            WCmd.rstCmd) = false
       ∧ ((esp32_connect_wifi ⟨false, false, true, true, true, true, true⟩).2.contains
            WCmd.cwmode1) = false
       ∧ ((esp32_connect_wifi ⟨false, false, true, true, true, true, true⟩).2.contains
            WCmd.cwjapJoin) = false) :=
  ⟨⟨by decide, by decide⟩,
   (c8_probe_reuse ⟨false, false, true, true, true, true, true⟩).2.2 (by decide) (by decide)⟩

/-! ## Buffer set — `windy_display.c` / `windy_display.h`

Three fixed 261 120-byte regions in SDRAM (`windy_display.h` lines 27-29)
plus the legacy two-buffer flip pair (`windy_display.c` lines 226-235).
The active designator is the static `s_active` (line 68); the LTDC layer
address latched by `HAL_LTDC_SetAddress` takes effect at the next vertical
refresh, modelled as an explicit `vsyncCommit` step. -/

/-- `LCD_FRAME_BUFFER` (`display_test.h` line 24, SDRAM base). -/
def LCD_FRAME_BUFFER : Nat := 0xC0000000

/-- `LCD_BUF_SNAP` (`windy_display.h` line 27). -/
def LCD_BUF_SNAP : Nat := 0xC0000000

/-- `LCD_BUF_TEMP` (`windy_display.h` line 28). -/
def LCD_BUF_TEMP : Nat := 0xC003FC00

/-- `LCD_BUF_HUM` (`windy_display.h` line 29). -/
def LCD_BUF_HUM : Nat := 0xC007F800

/-- Modelled from the spec: the value of `LCD_BACK_BUFFER` comes from a
header missing from the sources (`windy_display.c` lines 228 and 233 use it;
no header under `src/` defines it).  Per `windy_display.h` lines 74-75 the
flip swaps between the SNAP and TEMP buffers, so the back buffer is the TEMP
region (one buffer-size, 0x3FC00, above the SDRAM base). -/
def LCD_BACK_BUFFER : Nat := LCD_BUF_TEMP

/-- Display driver state: the active-region designator `s_active`
(`windy_display.c` line 68), the layer address latched for the LTDC
(`pending`), and the address the scan-out is using (`shown`), which catches
up with `pending` at the vertical-refresh boundary. -/
structure DispState where
  s_active : Nat
  pending : Nat
  shown : Nat
deriving Repr, DecidableEq

/-- State after `windy_display_init_sdram` (`windy_display.c` lines 207-217). -/
def dispInit : DispState := ⟨LCD_FRAME_BUFFER, LCD_FRAME_BUFFER, LCD_FRAME_BUFFER⟩

/-- `windy_display_front_addr` (`windy_display.c` lines 221-224). -/
def windy_display_front_addr (st : DispState) : Nat := st.s_active

/-- `windy_display_flip` (`windy_display.c` lines 231-235): toggle `s_active`
between `LCD_FRAME_BUFFER` and `LCD_BACK_BUFFER`, then latch it via
`HAL_LTDC_SetAddress`. -/
def windy_display_flip (st : DispState) : DispState :=
  let a := if st.s_active = LCD_FRAME_BUFFER then LCD_BACK_BUFFER else LCD_FRAME_BUFFER
  ⟨a, a, st.shown⟩

/-- Modelled from the spec: `windy_display_set_addr` is declared at
`windy_display.h` line 71 and called throughout `main.c`, but its definition
is not among the sources.  Per the header doc it points the LTDC at the
given buffer via `HAL_LTDC_SetAddress` (taking effect at the next VSYNC),
and per the Buffer Set contract `set_active(R)` followed by `active()`
returns `R`, so it records `R` as the active designator exactly as the flip
does. -/
def windy_display_set_addr (addr : Nat) (st : DispState) : DispState :=
  ⟨addr, addr, st.shown⟩

/-- Vertical-refresh boundary: the latched address becomes the scanned one. -/
def vsyncCommit (st : DispState) : DispState := ⟨st.s_active, st.pending, st.pending⟩

/-- Display states reachable through the operations the program performs:
initialisation, flips, `set_addr` with one of the three image buffers — the
only addresses `main.c` ever passes — and VSYNC commits. -/
inductive DispReachable : DispState → Prop
  | init : DispReachable dispInit
  | flip {st} : DispReachable st → DispReachable (windy_display_flip st)
  | setAddr {st} (a : Nat) :
      a = LCD_BUF_SNAP ∨ a = LCD_BUF_TEMP ∨ a = LCD_BUF_HUM →
      DispReachable st → DispReachable (windy_display_set_addr a st)
  | commit {st} : DispReachable st → DispReachable (vsyncCommit st)

/-- C5 counterexample.  The claim quantifies over every reachable state, but
`main.c` reaches states whose active region is `LCD_BUF_HUM` (line 89), and
from such a state `windy_display_flip` twice ends at `LCD_BACK_BUFFER`, not
back at `LCD_BUF_HUM`: the double flip is not the identity there, because
the flip compares only against `LCD_FRAME_BUFFER`. -/
theorem c5_counterexample :
    DispReachable (windy_display_set_addr LCD_BUF_HUM dispInit)
    ∧ windy_display_front_addr
        (windy_display_flip (windy_display_flip
          (windy_display_set_addr LCD_BUF_HUM dispInit)))
        ≠ windy_display_front_addr (windy_display_set_addr LCD_BUF_HUM dispInit) :=
  ⟨DispReachable.setAddr LCD_BUF_HUM (Or.inr (Or.inr rfl)) DispReachable.init,
   by decide⟩

/-- C5 (amended).  Two flips restore the active designator whenever it is
one of the two designated flip regions (`LCD_FRAME_BUFFER` or
`LCD_BACK_BUFFER`) — in particular after any flip; and for every region `R`,
`windy_display_set_addr R` followed by `windy_display_front_addr` returns
`R`, and the scanned address equals `R` after the next VSYNC commit. -/
theorem c5_amended (st : DispState) (a : Nat)
    (h : st.s_active = LCD_FRAME_BUFFER ∨ st.s_active = LCD_BACK_BUFFER) :
    windy_display_front_addr (windy_display_flip (windy_display_flip st))
      = windy_display_front_addr st
    ∧ windy_display_front_addr (windy_display_set_addr a st) = a
    ∧ (vsyncCommit (windy_display_set_addr a st)).shown = a := by
  have hne : LCD_BACK_BUFFER ≠ LCD_FRAME_BUFFER := by decide
  refine ⟨?_, rfl, rfl⟩
  rcases h with h | h
  · simp [windy_display_flip, windy_display_front_addr, h, hne]
  · simp [windy_display_flip, windy_display_front_addr, h, hne]

/-- Witness for C5 (amended): from the freshly initialised state (active =
`LCD_FRAME_BUFFER`), with `R = LCD_BUF_TEMP`. -/
theorem c5_witness :
    (dispInit.s_active = LCD_FRAME_BUFFER ∨ dispInit.s_active = LCD_BACK_BUFFER)
    ∧ (windy_display_front_addr (windy_display_flip (windy_display_flip dispInit))
        = windy_display_front_addr dispInit
       ∧ windy_display_front_addr (windy_display_set_addr LCD_BUF_TEMP dispInit)
           = LCD_BUF_TEMP
       ∧ (vsyncCommit (windy_display_set_addr LCD_BUF_TEMP dispInit)).shown
           = LCD_BUF_TEMP) :=
  ⟨Or.inl rfl, c5_amended dispInit LCD_BUF_TEMP (Or.inl rfl)⟩

/-! ## Display orchestrator — the re-fetch step of `main` (`Core/Src/main.c`, 93-110) -/

/-- Orchestrator actions in `main`'s re-fetch block: `windy_display_set_addr`
calls and `download` calls with their outcome (`download` wraps
`esp32_http_get_image`, `main.c` lines 115-123). -/
inductive OEvent
  | setActive (a : Nat)
  | fetchTemp (ok : Bool)
  | fetchHum (ok : Bool)
deriving Repr, DecidableEq

/-- The re-fetch block (`main.c` lines 94-110) as its sequence of display
and fetch actions.  The return codes of the two `download` calls are not
inspected: every `set_addr` in the block is unconditional. -/
def refetchStep (okTemp okHum : Bool) : List OEvent :=
  [OEvent.setActive LCD_BUF_HUM, OEvent.fetchTemp okTemp,
   OEvent.setActive LCD_BUF_TEMP, OEvent.fetchHum okHum,
   OEvent.setActive LCD_BUF_TEMP]

/-- Effect of an orchestrator event sequence on the display state: fetches
write image memory but the designator changes only through `set_addr`. -/
def runEvents (st : DispState) : List OEvent → DispState
  | [] => st
  | OEvent.setActive a :: r => runEvents (windy_display_set_addr a st) r
  | OEvent.fetchTemp _ :: r => runEvents st r
  | OEvent.fetchHum _ :: r => runEvents st r

/-- The `set_addr` calls an event sequence performs, in order. -/
def setActiveSeq (es : List OEvent) : List Nat :=
  es.filterMap fun e =>
    match e with
    | OEvent.setActive a => some a
    | _ => none

/-- C4 counterexample.  The claim says a buffer just fetched into becomes
active only when the fetch succeeded, and that a failed fetch leaves the
previously visible region active.  In the source the re-fetch block ignores
both `download` return codes: with both fetches failing and `LCD_BUF_HUM`
visible beforehand, the block still contains `set_addr(LCD_BUF_TEMP)` right
after the failed fetch into `LCD_BUF_TEMP`, and the step ends with
`LCD_BUF_TEMP` — the buffer the failed fetch wrote into — as the active
region. -/
theorem c4_counterexample :
    refetchStep false false
      = [OEvent.setActive LCD_BUF_HUM, OEvent.fetchTemp false,
         OEvent.setActive LCD_BUF_TEMP, OEvent.fetchHum false,
         OEvent.setActive LCD_BUF_TEMP]
    ∧ (runEvents (windy_display_set_addr LCD_BUF_HUM dispInit)
        (refetchStep false false)).s_active = LCD_BUF_TEMP
    ∧ LCD_BUF_TEMP ≠ LCD_BUF_HUM := by
  refine ⟨rfl, rfl, by decide⟩

/-- C4 (amended).  The re-fetch step never inspects the download results: it
unconditionally shows `LCD_BUF_HUM` while fetching into `LCD_BUF_TEMP`, then
shows `LCD_BUF_TEMP` while fetching into `LCD_BUF_HUM`, and finally leaves
`LCD_BUF_TEMP` active — whatever each fetch's outcome and whatever region
was visible before; the next attempt comes only after the full refresh
interval. -/
theorem c4_amended (okTemp okHum : Bool) (st : DispState) :
    setActiveSeq (refetchStep okTemp okHum)
      = [LCD_BUF_HUM, LCD_BUF_TEMP, LCD_BUF_TEMP]
    ∧ (runEvents st (refetchStep okTemp okHum)).s_active = LCD_BUF_TEMP :=
  ⟨rfl, rfl⟩

end Disco
